import Mathlib

/-!
Verification development for the security role request application.

The definitions below are shallow embeddings of the workflow logic of the
repository: the approval list handling of the request-details page, the
next-pending selection of the request listing page, the edit flow of
EditRequestPage.tsx, the copy-from-user path and the role-selection upserts of
App.tsx and the three area sub-form pages.  Store tables are modelled as lists
of rows, store-assigned identifiers and timestamps are passed in explicitly,
and each fallible store call is modelled by an explicit failure flag or an
Except result.
-/

set_option linter.unusedVariables false

namespace SecurityForm

/-- Status of one approval row: the status column of request_approvals. -/
inductive ApprovalStatus
  | pending
  | approved
  | denied
  deriving DecidableEq, Repr

/-- One row of the request_approvals table as the pages read it (the Approval
interface of the request-details page; the listing page reads the subset id,
step, status).  created_at is the store-assigned creation time, modelled as an
integer timestamp, and approved_at keeps its stored string form. -/
structure Approval where
  id : String
  step : String
  approver_email : String
  status : ApprovalStatus
  signature_data : Option String
  approved_at : Option String
  comments : Option String
  created_at : Int
  deriving DecidableEq, Repr

/-- One row of the security_role_requests table, restricted to the columns the
modelled operations touch: the completion metadata written by the complete
action and the employee_id, status and created_at columns used by the
copy-from-user lookup. -/
structure Request where
  id : String
  employee_id : String
  status : String
  completed_by : Option String
  completed_at : Option String
  created_at : Int
  deriving DecidableEq, Repr

/-- The allApprovalsApproved flag of the request-details page:
approvals.length greater than zero and every approval row approved. -/
def allApprovalsApproved (approvals : List Approval) : Bool :=
  decide (approvals.length > 0) &&
    approvals.all (fun a => a.status == ApprovalStatus.approved)

/-- The canCompleteRequest flag of the request-details page: all approvals
approved and the request status not already completed. -/
def canCompleteRequest (approvals : List Approval) (request : Request) : Bool :=
  allApprovalsApproved approvals && !(request.status == "completed")

/-- Error outcome of the complete action: the only check the handler performs
is the blank-name check, surfaced as a validation error toast. -/
inductive CompleteError
  | validationError
  deriving DecidableEq, Repr

/-- JS String.prototype.trim, modelled on the underlying character list:
leading and trailing whitespace characters are removed. -/
def jsTrim (s : String) : String :=
  String.mk (((s.data.dropWhile Char.isWhitespace).reverse.dropWhile
    Char.isWhitespace).reverse)

/-- The handleCompleteRequest handler of the request-details page: if the
trimmed completer name is empty it rejects with a validation error; otherwise
it updates the request row to status completed, completed_by the trimmed name
and completed_at the current time.  The handler performs no other check. -/
def handleCompleteRequest (request : Request) (completerName : String)
    (now : String) : Except CompleteError Request :=
  if jsTrim completerName = "" then Except.error CompleteError.validationError
  else
    Except.ok { request with
      status := "completed"
      completed_by := some (jsTrim completerName)
      completed_at := some now }

/-- A pending request with no completion metadata, used as a concrete input. -/
def pendingRequest : Request :=
  { id := "r1", employee_id := "E1", status := "pending",
    completed_by := none, completed_at := none, created_at := 0 }

/-- C2: isFullyApproved (allApprovalsApproved in the code) is true exactly when
the approval set is non-empty and every row is approved; it is false for the
empty set and for any set with a non-approved row. -/
theorem isFullyApproved_iff (approvals : List Approval) :
    allApprovalsApproved approvals = true ↔
      approvals ≠ [] ∧ ∀ a ∈ approvals, a.status = ApprovalStatus.approved := by
  simp [allApprovalsApproved, List.length_pos]

/-- Concrete approved user-signature row used by witnesses. -/
def sigApproved : Approval :=
  { id := "ap-sig-ok", step := "user_signature", approver_email := "emp@state.mn.us",
    status := ApprovalStatus.approved, signature_data := some "sig",
    approved_at := some "2026-01-01T00:00:00Z", comments := none, created_at := 1 }

/-- Witness for isFullyApproved_iff at a concrete singleton approval list. -/
theorem isFullyApproved_iff_witness : allApprovalsApproved [sigApproved] = true :=
  (isFullyApproved_iff [sigApproved]).mpr ⟨by decide, by decide⟩

/-- C1 counterexample: with an empty approval set the completion gate is
false, yet the complete operation succeeds with a non-blank name — the
operation never re-checks the gate, so no precondition error is raised. -/
theorem completeRequest_gate_counterexample :
    canCompleteRequest [] pendingRequest = false ∧
    handleCompleteRequest pendingRequest "Alice" "2026-01-01T00:00:00Z" =
      Except.ok { pendingRequest with
        status := "completed"
        completed_by := some "Alice"
        completed_at := some "2026-01-01T00:00:00Z" } := by
  constructor
  · rfl
  · rfl

/-- C1 amended: the complete operation fails with a validation error exactly
when the trimmed completer name is blank and otherwise unconditionally marks
the request completed with the trimmed name and the current time; the
completion gate canCompleteRequest is consulted only by the page when deciding
whether to render the action, never by the operation itself. -/
theorem completeRequest_amended (request : Request) (completerName now : String) :
    (jsTrim completerName = "" →
      handleCompleteRequest request completerName now =
        Except.error CompleteError.validationError) ∧
    (jsTrim completerName ≠ "" →
      handleCompleteRequest request completerName now =
        Except.ok { request with
          status := "completed"
          completed_by := some (jsTrim completerName)
          completed_at := some now }) := by
  constructor <;> intro h <;> simp [handleCompleteRequest, h]

/-- Witness for completeRequest_amended at a concrete non-blank name. -/
theorem completeRequest_amended_witness :
    jsTrim "Bob" ≠ "" ∧
    handleCompleteRequest pendingRequest "Bob" "t0" =
      Except.ok { pendingRequest with
        status := "completed"
        completed_by := some (jsTrim "Bob")
        completed_at := some "t0" } :=
  ⟨by decide, (completeRequest_amended pendingRequest "Bob" "t0").2 (by decide)⟩

/-- Post-submit navigation of the create flow (onSubmit in App.tsx): a
copy-path submission goes to /success, otherwise the destination is keyed by
the chosen security area. -/
def createFlowDestination (isCopy : Bool) (securityArea : String) : String :=
  if isCopy then "/success"
  else if securityArea = "elm" then "/elm-roles"
  else if securityArea = "epm_data_warehouse" then "/epm-dwh-roles"
  else if securityArea = "hr_payroll" then "/hr-payroll-roles"
  else "/select-roles"

/-- Post-submit navigation of the edit flow (onSubmit in EditRequestPage.tsx):
a copy-path submission goes back to /requests, every other submission goes to
/select-roles, with no branching on the security area. -/
def editFlowDestination (isCopy : Bool) (securityArea : String) : String :=
  if isCopy then "/requests" else "/select-roles"

/-- The selection-time redirect of the edit page effect: choosing elm
navigates to /elm-roles immediately, before any submission. -/
def editElmSelectionRedirect (securityArea : String) : Option String :=
  if securityArea = "elm" then some "/elm-roles" else none

/-- routeAfterCreateOrEdit as the specification words it: the pure mapping
from area_type to destination, stated for comparison with the navigation the
two flows actually perform. -/
def routeAfterCreateOrEdit (areaType : String) : String :=
  if areaType = "elm" then "/elm-roles"
  else if areaType = "epm_data_warehouse" then "/epm-dwh-roles"
  else if areaType = "hr_payroll" then "/hr-payroll-roles"
  else "/select-roles"

/-- C6: the create flow follows the pure area mapping for non-copy
submissions, but the edit flow sends every non-copy submission to
/select-roles regardless of the area, so the two flows route an
epm_data_warehouse (and an hr_payroll) request to different destinations; the
edit page handles elm only through the selection-time redirect. -/
theorem createEditRouting_divergence :
    (∀ area : String, createFlowDestination false area = routeAfterCreateOrEdit area) ∧
    editFlowDestination false "epm_data_warehouse" = "/select-roles" ∧
    editFlowDestination false "hr_payroll" = "/select-roles" ∧
    createFlowDestination false "epm_data_warehouse" = "/epm-dwh-roles" ∧
    createFlowDestination false "epm_data_warehouse" ≠
      editFlowDestination false "epm_data_warehouse" ∧
    editElmSelectionRedirect "elm" = some "/elm-roles" :=
  ⟨fun _ => rfl, rfl, rfl, rfl, by decide, rfl⟩

/-- Character-list test used to model JS String.prototype.startsWith. -/
def startsWithList : List Char → List Char → Bool
  | _, [] => true
  | [], _ :: _ => false
  | c :: cs, d :: ds => c == d && startsWithList cs ds

/-- Character-list search used to model JS String.prototype.includes. -/
def hasSubList (needle : List Char) : List Char → Bool
  | [] => startsWithList [] needle
  | c :: cs => startsWithList (c :: cs) needle || hasSubList needle cs

/-- JS String.prototype.includes on the underlying character lists. -/
def jsIncludes (s needle : String) : Bool :=
  hasSubList needle.data s.data

/-- The director_email written for an hr_payroll security area: the statewide
flag selects between the two fixed addresses.  The create flow and the edit
flow use this identical expression. -/
def hrPayrollDirectorEmail (hrViewStatewide : Bool) : String :=
  if hrViewStatewide then "hr_statewide_access@state.mn.us"
  else "hr_standard_access@state.mn.us"

/-- The hrViewStatewide flag as the edit page decodes it when loading: the
nullable director_email tested for the substring statewide, null decoding to
false. -/
def decodeHrViewStatewide (directorEmail : Option String) : Bool :=
  match directorEmail with
  | some e => jsIncludes e "statewide"
  | none => false

/-- C10: encoding the statewide flag into director_email on save and decoding
it by the substring test on load recovers exactly the original boolean. -/
theorem hrViewStatewide_roundtrip (b : Bool) :
    decodeHrViewStatewide (some (hrPayrollDirectorEmail b)) = b := by
  cases b <;> decide

/-- The stepOrder rank table inside fetchRequestDetails of the request-details
page; the JS lookup falls back to 3 for any step outside the vocabulary. -/
def stepOrder (step : String) : Int :=
  if step = "user_signature" then 1
  else if step = "supervisor_approval" then 2
  else if step = "accounting_director_approval" then 3
  else if step = "hr_director_approval" then 3
  else if step = "elm_admin_approval" then 3
  else if step = "security_admin_approval" then 4
  else 3

/-- The comparator passed to sort in fetchRequestDetails: rank difference
when the ranks differ, otherwise the created_at time difference. -/
def approvalCompare (a b : Approval) : Int :=
  if stepOrder a.step ≠ stepOrder b.step then stepOrder a.step - stepOrder b.step
  else a.created_at - b.created_at

/-- Ordering relation induced by the comparator: a sorts no later than b. -/
def approvalLE (a b : Approval) : Prop :=
  approvalCompare a b ≤ 0

instance : DecidableRel approvalLE :=
  fun a b => inferInstanceAs (Decidable (approvalCompare a b ≤ 0))

/-- The sortedApprovals list of fetchRequestDetails: the fetched rows sorted
with the comparator. -/
def sortedApprovals (approvals : List Approval) : List Approval :=
  approvals.insertionSort approvalLE

/-- The comparator orders by rank first and breaks rank ties by created_at. -/
theorem approvalLE_iff (a b : Approval) :
    approvalLE a b ↔ stepOrder a.step < stepOrder b.step ∨
      (stepOrder a.step = stepOrder b.step ∧ a.created_at ≤ b.created_at) := by
  unfold approvalLE approvalCompare
  split <;> omega

instance : IsTotal Approval approvalLE :=
  ⟨by intro a b; rw [approvalLE_iff, approvalLE_iff]; omega⟩

instance : IsTrans Approval approvalLE :=
  ⟨by intro a b c; rw [approvalLE_iff, approvalLE_iff, approvalLE_iff]; omega⟩

/-- C3: the canonical display ordering is a permutation of the fetched rows,
sorted by rank (user_signature 1, supervisor_approval 2, the area approvals 3,
security_admin_approval 4 last) with ties inside a rank broken by created_at
ascending, and any step outside the vocabulary is ranked 3. -/
theorem canonical_ordering_spec (approvals : List Approval) :
    (sortedApprovals approvals).Perm approvals ∧
    List.Sorted approvalLE (sortedApprovals approvals) ∧
    (∀ a b : Approval, approvalLE a b ↔ stepOrder a.step < stepOrder b.step ∨
      (stepOrder a.step = stepOrder b.step ∧ a.created_at ≤ b.created_at)) ∧
    stepOrder "user_signature" = 1 ∧
    stepOrder "supervisor_approval" = 2 ∧
    stepOrder "accounting_director_approval" = 3 ∧
    stepOrder "hr_director_approval" = 3 ∧
    stepOrder "elm_admin_approval" = 3 ∧
    stepOrder "security_admin_approval" = 4 ∧
    (∀ step : String, step ∉ ["user_signature", "supervisor_approval",
        "accounting_director_approval", "hr_director_approval",
        "elm_admin_approval", "security_admin_approval"] → stepOrder step = 3) := by
  refine ⟨List.perm_insertionSort _ _, List.sorted_insertionSort _ _,
    approvalLE_iff, by decide, by decide, by decide, by decide, by decide,
    by decide, ?_⟩
  intro step h
  simp only [List.mem_cons, List.not_mem_nil, or_false, not_or] at h
  obtain ⟨h1, h2, h3, h4, h5, h6⟩ := h
  simp [stepOrder, h1, h2, h3, h4, h5, h6]

/-- Concrete pending security-admin row, created before the signature row. -/
def secPending : Approval :=
  { id := "ap-sec", step := "security_admin_approval",
    approver_email := "sec@state.mn.us", status := ApprovalStatus.pending,
    signature_data := none, approved_at := none, comments := none,
    created_at := 0 }

/-- Concrete pending user-signature row, created after the admin row. -/
def sigPending : Approval :=
  { id := "ap-sig", step := "user_signature",
    approver_email := "emp@state.mn.us", status := ApprovalStatus.pending,
    signature_data := none, approved_at := none, comments := none,
    created_at := 1 }

/-- Witness for canonical_ordering_spec at a concrete two-row list and a
concrete step outside the vocabulary. -/
theorem canonical_ordering_spec_witness :
    (sortedApprovals [secPending, sigPending]).Perm [secPending, sigPending] ∧
    stepOrder "mystery_step" = 3 :=
  ⟨(canonical_ordering_spec [secPending, sigPending]).1,
    (canonical_ordering_spec []).2.2.2.2.2.2.2.2.2 "mystery_step" (by decide)⟩

/-- The getNextPendingApproval helper of the request listing page: the first
row with status pending in the order the rows were fetched. -/
def getNextPendingApproval (approvals : List Approval) : Option Approval :=
  approvals.find? (fun a => a.status == ApprovalStatus.pending)

/-- The review URL built by the listing row action for the next pending
approval of a request. -/
def reviewUrl (origin requestId : String) (a : Approval) : String :=
  origin ++ "/signature/" ++ requestId ++ "/" ++ a.id ++ "?mode=review"

/-- The actionable review link of a listing row: present exactly when a next
pending approval exists, and built from that approval. -/
def reviewLinkForRequest (origin requestId : String)
    (approvals : List Approval) : Option String :=
  (getNextPendingApproval approvals).map (reviewUrl origin requestId)

/-- C4 counterexample: on a fetched row order that is not canonical, the
listing page picks the first pending row of the fetched order — here the
security-admin step — while the first pending row in canonical order is the
user-signature step, so the two selections differ. -/
theorem nextPending_not_canonical_counterexample :
    getNextPendingApproval [secPending, sigPending] = some secPending ∧
    (sortedApprovals [secPending, sigPending]).find?
      (fun a => a.status == ApprovalStatus.pending) = some sigPending ∧
    secPending ≠ sigPending := by
  refine ⟨rfl, ?_, by decide⟩
  decide

/-- C4 amended: getNextPendingApproval returns the first pending approval in
the order the store returned the rows (the listing page applies no canonical
sort), returns none exactly when no row is pending, and the review link is
built from exactly that approval. -/
theorem nextPending_fetched_order (origin requestId : String)
    (approvals : List Approval) :
    (∀ a : Approval, getNextPendingApproval approvals = some a ↔
      a.status = ApprovalStatus.pending ∧
      ∃ l₁ l₂, approvals = l₁ ++ a :: l₂ ∧
        ∀ b ∈ l₁, b.status ≠ ApprovalStatus.pending) ∧
    (getNextPendingApproval approvals = none ↔
      ∀ a ∈ approvals, a.status ≠ ApprovalStatus.pending) ∧
    reviewLinkForRequest origin requestId approvals =
      (getNextPendingApproval approvals).map (reviewUrl origin requestId) := by
  refine ⟨?_, ?_, rfl⟩
  · intro a
    rw [getNextPendingApproval, List.find?_eq_some]
    simp
  · rw [getNextPendingApproval, List.find?_eq_none]
    simp

/-- Witness for nextPending_fetched_order: on a list whose first row is
already approved, the next pending approval is the later pending row. -/
theorem nextPending_fetched_order_witness :
    getNextPendingApproval [sigApproved, secPending] = some secPending :=
  ((nextPending_fetched_order "https://app" "r1" [sigApproved, secPending]).1
    secPending).mpr ⟨rfl, [sigApproved], [], rfl, by decide⟩

/-- The three area-specific approval steps targeted by the edit flow's
compensating delete when the area type changes. -/
def areaSpecificSteps : List String :=
  ["accounting_director_approval", "hr_director_approval", "elm_admin_approval"]

/-- The area-specific approval step belonging to each area_type, used to read
the claim's phrase "the newly chosen area's step". -/
def areaStepFor (areaType : String) : Option String :=
  if areaType = "accounting_procurement" then some "accounting_director_approval"
  else if areaType = "hr_payroll" then some "hr_director_approval"
  else if areaType = "elm" then some "elm_admin_approval"
  else none

/-- The delete the edit flow issues when area_type changes: every approval row
whose step is in the area-specific set is removed, with no reference to the
newly chosen area. -/
def deleteAreaSpecificApprovals (approvals : List Approval) : List Approval :=
  approvals.filter (fun a => !(areaSpecificSteps.contains a.step))

/-- The per-row effect of the reset the edit flow issues at the end of every
submission: rows other than user_signature go back to pending with the
signature payload and approval time cleared. -/
def resetApprovalRow (a : Approval) : Approval :=
  if a.step == "user_signature" then a
  else
    { a with
      status := ApprovalStatus.pending
      signature_data := none
      approved_at := none }

/-- The reset applied to every remaining approval row of the request. -/
def resetNonSignatureApprovals (approvals : List Approval) : List Approval :=
  approvals.map resetApprovalRow

/-- Combined effect of an area-changing edit on the approval rows that existed
before the edit: the compensating delete followed by the reset (rows created
for the new area by the store trigger are outside the sources). -/
def editApprovalsOnAreaChange (approvals : List Approval) : List Approval :=
  resetNonSignatureApprovals (deleteAreaSpecificApprovals approvals)

/-- The deletion as the claim words it: remove exactly the area-specific rows
whose step is not the newly chosen area's step.  Stated only for comparison
with deleteAreaSpecificApprovals, which ignores the new area. -/
def claimedAreaChangeDelete (newAreaStep : String)
    (approvals : List Approval) : List Approval :=
  approvals.filter (fun a =>
    !(areaSpecificSteps.contains a.step && !(a.step == newAreaStep)))

/-- Concrete approved accounting-director row used by the C5 counterexample. -/
def accApproved : Approval :=
  { id := "ap-acc", step := "accounting_director_approval",
    approver_email := "acc@state.mn.us", status := ApprovalStatus.approved,
    signature_data := some "sig", approved_at := some "2026-01-02T00:00:00Z",
    comments := none, created_at := 2 }

/-- C5 counterexample: editing to area accounting_procurement while a row for
accounting_director_approval is present removes that row even though its step
is the newly chosen area's, so the removal is not restricted to steps other
than the new area's as the claim states. -/
theorem editAreaChange_counterexample :
    areaStepFor "accounting_procurement" = some "accounting_director_approval" ∧
    editApprovalsOnAreaChange [accApproved] = [] ∧
    resetNonSignatureApprovals
      (claimedAreaChangeDelete "accounting_director_approval" [accApproved]) =
      [resetApprovalRow accApproved] ∧
    ([] : List Approval) ≠ [resetApprovalRow accApproved] := by
  refine ⟨rfl, ?_, ?_, by decide⟩ <;> decide

/-- C5 amended: an area-changing edit removes every approval row whose step is
in the area-specific set, the chosen area's included when such a row is
present; the user_signature row survives completely untouched; and every other
surviving row is reset to pending with signature_data and approved_at
cleared. -/
theorem editAreaChange_amended (approvals : List Approval) :
    (∀ a ∈ approvals, a.step = "user_signature" →
      a ∈ editApprovalsOnAreaChange approvals) ∧
    (∀ a ∈ editApprovalsOnAreaChange approvals, a.step ∉ areaSpecificSteps) ∧
    (∀ a ∈ approvals, a.step ∉ areaSpecificSteps → a.step ≠ "user_signature" →
      resetApprovalRow a ∈ editApprovalsOnAreaChange approvals ∧
      (resetApprovalRow a).status = ApprovalStatus.pending ∧
      (resetApprovalRow a).signature_data = none ∧
      (resetApprovalRow a).approved_at = none) := by
  have hcont : ∀ s : String,
      areaSpecificSteps.contains s = false ↔ s ∉ areaSpecificSteps := by
    intro s
    simp [areaSpecificSteps]
  have hstep_reset : ∀ a : Approval, (resetApprovalRow a).step = a.step := by
    intro a
    unfold resetApprovalRow
    split <;> rfl
  refine ⟨?_, ?_, ?_⟩
  · intro a ha hstep
    have hkeep : areaSpecificSteps.contains a.step = false := by
      rw [hcont]
      simp [areaSpecificSteps, hstep]
    have hmem : a ∈ deleteAreaSpecificApprovals approvals :=
      List.mem_filter.mpr ⟨ha, by rw [hkeep]; rfl⟩
    have hfix : resetApprovalRow a = a := by
      simp [resetApprovalRow, hstep]
    exact List.mem_map.mpr ⟨a, hmem, hfix⟩
  · intro a ha
    simp only [editApprovalsOnAreaChange, resetNonSignatureApprovals,
      List.mem_map, deleteAreaSpecificApprovals, List.mem_filter] at ha
    obtain ⟨b, ⟨hbmem, hb⟩, rfl⟩ := ha
    have hfalse : areaSpecificSteps.contains b.step = false := by
      simpa using hb
    rw [hstep_reset b]
    exact (hcont b.step).mp hfalse
  · intro a ha hnotarea hnotsig
    have hkeep : areaSpecificSteps.contains a.step = false :=
      (hcont a.step).mpr hnotarea
    have hmem : a ∈ deleteAreaSpecificApprovals approvals :=
      List.mem_filter.mpr ⟨ha, by rw [hkeep]; rfl⟩
    have hreset_eq : resetApprovalRow a =
        { a with
          status := ApprovalStatus.pending
          signature_data := none
          approved_at := none } := by
      simp [resetApprovalRow, hnotsig]
    refine ⟨List.mem_map.mpr ⟨a, hmem, rfl⟩, ?_, ?_, ?_⟩ <;> rw [hreset_eq]

/-- Concrete approved supervisor row used by the C5 witness. -/
def supApproved : Approval :=
  { id := "ap-sup", step := "supervisor_approval",
    approver_email := "sup@state.mn.us", status := ApprovalStatus.approved,
    signature_data := some "sig", approved_at := some "2026-01-03T00:00:00Z",
    comments := none, created_at := 3 }

/-- Witness for editAreaChange_amended: a concrete approved supervisor row is
reset to pending with its signature and approval time cleared. -/
theorem editAreaChange_amended_witness :
    resetApprovalRow supApproved ∈ editApprovalsOnAreaChange [supApproved] ∧
    (resetApprovalRow supApproved).status = ApprovalStatus.pending :=
  ⟨((editAreaChange_amended [supApproved]).2.2 supApproved (by decide)
      (by decide) (by decide)).1,
    ((editAreaChange_amended [supApproved]).2.2 supApproved (by decide)
      (by decide) (by decide)).2.1⟩

/-- One row of the security_role_selections table.  The copy path manipulates
id, request_id, created_at, updated_at and role_justification explicitly and
spreads every other column verbatim, so the remaining area-specific columns
are modelled as an opaque list of column-value pairs. -/
structure RoleSelectionRow where
  id : String
  request_id : String
  created_at : Int
  updated_at : Int
  role_justification : Option String
  payload : List (String × String)
  deriving DecidableEq, Repr

/-- Column values supplied by one of the four role-selection sub-form submit
handlers: the request key, the mapped role columns and the justification. -/
structure RoleSelectionData where
  request_id : String
  role_justification : Option String
  payload : List (String × String)
  deriving DecidableEq, Repr

/-- The in-place update half of the upsert: when the stored row carries the
conflicting request_id its supplied columns are overwritten while the
store-assigned id and created_at remain, otherwise the row is untouched. -/
def applyUpsertRow (data : RoleSelectionData) (now : Int)
    (s : RoleSelectionRow) : RoleSelectionRow :=
  if s.request_id == data.request_id then
    { s with
      role_justification := data.role_justification
      payload := data.payload
      updated_at := now }
  else s

/-- The freshly inserted row of the upsert, with store-assigned id and
timestamps. -/
def freshSelectionRow (data : RoleSelectionData) (genId : String)
    (now : Int) : RoleSelectionRow :=
  { id := genId, request_id := data.request_id, created_at := now,
    updated_at := now, role_justification := data.role_justification,
    payload := data.payload }

/-- The upsert with onConflict request_id issued by all four sub-form submit
handlers (the accounting page in App.tsx and the ELM, EPM and HR/Payroll
pages): update in place when a row with the same request_id exists, insert a
fresh row otherwise. -/
def upsertSelection (table : List RoleSelectionRow) (data : RoleSelectionData)
    (genId : String) (now : Int) : List RoleSelectionRow :=
  if table.any (fun s => s.request_id == data.request_id) then
    table.map (applyUpsertRow data now)
  else table ++ [freshSelectionRow data genId now]

/-- Number of selection rows stored for a request. -/
def selectionCount (table : List RoleSelectionRow) (requestId : String) : Nat :=
  (table.filter (fun s => s.request_id == requestId)).length

/-- Repeated submissions of the same selection input folded over the table,
each carrying its own store-assigned id and timestamp. -/
def submitMany (table : List RoleSelectionRow) (data : RoleSelectionData)
    (stamps : List (String × Int)) : List RoleSelectionRow :=
  stamps.foldl (fun t p => upsertSelection t data p.1 p.2) table

/-- The update half of the upsert never changes the key column. -/
theorem applyUpsertRow_request_id (data : RoleSelectionData) (now : Int)
    (s : RoleSelectionRow) :
    (applyUpsertRow data now s).request_id = s.request_id := by
  unfold applyUpsertRow
  split <;> rfl

/-- Overwriting the supplied columns twice with the same data is the same as
overwriting them once. -/
theorem applyUpsertRow_idem (data : RoleSelectionData) (now : Int)
    (s : RoleSelectionRow) :
    applyUpsertRow data now (applyUpsertRow data now s) =
      applyUpsertRow data now s := by
  by_cases h : (s.request_id == data.request_id) = true
  · simp [applyUpsertRow, h]
  · simp [applyUpsertRow, h]

/-- Mapping a key-preserving function over the table preserves the per-request
row count. -/
theorem selectionCount_map_invariant (table : List RoleSelectionRow)
    (f : RoleSelectionRow → RoleSelectionRow)
    (hf : ∀ s, (f s).request_id = s.request_id) (requestId : String) :
    selectionCount (table.map f) requestId = selectionCount table requestId := by
  induction table with
  | nil => rfl
  | cons s t ih =>
    unfold selectionCount at *
    simp only [List.map_cons, List.filter_cons, hf s]
    split
    · simp [ih]
    · exact ih

/-- One upsert leaves exactly one row for the submitted request, provided the
unique-key invariant held before. -/
theorem selectionCount_upsert (table : List RoleSelectionRow)
    (data : RoleSelectionData) (genId : String) (now : Int)
    (h : selectionCount table data.request_id ≤ 1) :
    selectionCount (upsertSelection table data genId now) data.request_id = 1 := by
  unfold upsertSelection
  split
  · rename_i hany
    rw [selectionCount_map_invariant table _ (applyUpsertRow_request_id data now)]
    rw [List.any_eq_true] at hany
    obtain ⟨s, hs, hpred⟩ := hany
    have hmem : s ∈ table.filter (fun s => s.request_id == data.request_id) :=
      List.mem_filter.mpr ⟨hs, hpred⟩
    have hpos : 0 < selectionCount table data.request_id :=
      List.length_pos.mpr (List.ne_nil_of_mem hmem)
    omega
  · rename_i hany
    have hnil : table.filter (fun s => s.request_id == data.request_id) = [] := by
      apply List.filter_eq_nil_iff.mpr
      intro s hs hpred
      exact hany (List.any_eq_true.mpr ⟨s, hs, hpred⟩)
    unfold selectionCount
    rw [List.filter_append, hnil]
    simp [freshSelectionRow]

/-- Once exactly one row exists for the request, any further sequence of
submissions of the same input keeps exactly one row. -/
theorem selectionCount_submitMany (table : List RoleSelectionRow)
    (data : RoleSelectionData) (stamps : List (String × Int))
    (h : selectionCount table data.request_id = 1) :
    selectionCount (submitMany table data stamps) data.request_id = 1 := by
  induction stamps generalizing table with
  | nil => exact h
  | cons p ps ih =>
    exact ih (upsertSelection table data p.1 p.2)
      (selectionCount_upsert table data p.1 p.2 (le_of_eq h))

/-- C8: the shared save operation of the four sub-forms is an upsert keyed by
request_id: submitting the same input again is a no-op on the stored table,
and after one submission followed by any number of further submissions of the
same input exactly one selection row exists for the request, provided the
unique-key invariant held initially. -/
theorem saveSelections_upsert_idempotent (table : List RoleSelectionRow)
    (data : RoleSelectionData) (genId : String) (now : Int) :
    upsertSelection (upsertSelection table data genId now) data genId now =
      upsertSelection table data genId now ∧
    (selectionCount table data.request_id ≤ 1 →
      ∀ stamps : List (String × Int),
        selectionCount (submitMany (upsertSelection table data genId now) data
          stamps) data.request_id = 1) := by
  constructor
  · by_cases hany : (table.any (fun s => s.request_id == data.request_id)) = true
    · have h1 : upsertSelection table data genId now =
          table.map (applyUpsertRow data now) := by
        unfold upsertSelection
        rw [if_pos hany]
      have hcomp : ((fun s : RoleSelectionRow => s.request_id == data.request_id) ∘
          applyUpsertRow data now) =
          (fun s : RoleSelectionRow => s.request_id == data.request_id) := by
        funext s
        simp [Function.comp, applyUpsertRow_request_id]
      have hany2 : ((table.map (applyUpsertRow data now)).any
          (fun s => s.request_id == data.request_id)) = true := by
        rw [List.any_map, hcomp]
        exact hany
      rw [h1]
      unfold upsertSelection
      rw [if_pos hany2, List.map_map]
      exact List.map_congr_left (fun s _ => applyUpsertRow_idem data now s)
    · have h1 : upsertSelection table data genId now =
          table ++ [freshSelectionRow data genId now] := by
        unfold upsertSelection
        rw [if_neg hany]
      have hany2 : ((table ++ [freshSelectionRow data genId now]).any
          (fun s => s.request_id == data.request_id)) = true := by
        rw [List.any_append]
        simp [freshSelectionRow]
      rw [h1]
      unfold upsertSelection
      rw [if_pos hany2, List.map_append]
      have hpt : ∀ s ∈ table, applyUpsertRow data now s = s := by
        intro s hs
        have hfalse : ¬ ((s.request_id == data.request_id) = true) := fun hc =>
          hany (List.any_eq_true.mpr ⟨s, hs, hc⟩)
        simp [applyUpsertRow, hfalse]
      have htab : table.map (applyUpsertRow data now) = table := by
        calc table.map (applyUpsertRow data now)
            = table.map (fun s => s) := List.map_congr_left hpt
          _ = table := List.map_id' table
      have hfr : [freshSelectionRow data genId now].map (applyUpsertRow data now) =
          [freshSelectionRow data genId now] := by
        simp [applyUpsertRow, freshSelectionRow]
      rw [htab, hfr]
  · intro hle stamps
    exact selectionCount_submitMany _ data stamps
      (selectionCount_upsert table data genId now hle)

/-- Concrete selection input used by witnesses. -/
def demoSelectionData : RoleSelectionData :=
  { request_id := "r9", role_justification := some "J",
    payload := [("voucher_entry", "true")] }

/-- Witness for saveSelections_upsert_idempotent: starting from the empty
table, one submission followed by two further submissions of the same input
leaves exactly one row. -/
theorem saveSelections_upsert_idempotent_witness :
    selectionCount (submitMany (upsertSelection [] demoSelectionData "g1" 1)
      demoSelectionData [("g2", 2), ("g3", 3)]) demoSelectionData.request_id = 1 :=
  (saveSelections_upsert_idempotent [] demoSelectionData "g1" 1).2 (by decide)
    [("g2", 2), ("g3", 3)]

/-- Failure flags for the three store calls made by the copy-from-user path:
the source-request lookup, the source role-selection lookup and the final
insert.  Each failing call makes the function return early. -/
structure CopyStoreFailures where
  requestLookupFails : Bool
  rolesLookupFails : Bool
  insertFails : Bool
  deriving DecidableEq, Repr

/-- All three copy-path store calls succeed. -/
def noFailures : CopyStoreFailures :=
  { requestLookupFails := false, rolesLookupFails := false, insertFails := false }

/-- JS x || d on a nullable string column: null and the empty string are falsy
and fall back to the default. -/
def jsOrDefault (x : Option String) (d : String) : String :=
  match x with
  | none => d
  | some s => if s = "" then d else s

/-- The source-request lookup shared by both copyExistingUserRoles variants:
the completed requests of the employee ordered by created_at descending,
limited to one row. -/
def mostRecentCompleted (requests : List Request) (employeeId : String) :
    Option Request :=
  (requests.filter (fun r =>
    r.employee_id == employeeId && r.status == "completed")).foldl
    (fun best r =>
      match best with
      | none => some r
      | some b => if r.created_at > b.created_at then some r else some b) none

/-- The single-row read of security_role_selections for a request. -/
def findSelection (table : List RoleSelectionRow) (requestId : String) :
    Option RoleSelectionRow :=
  table.find? (fun s => s.request_id == requestId)

/-- The duplicated row built by both variants: the JS spread of the source row
with id, created_at and updated_at stripped (re-assigned by the store),
request_id set to the new request and role_justification defaulted when the
source value was null or empty. -/
def copiedRow (src : RoleSelectionRow) (newRequestId genId : String)
    (now : Int) : RoleSelectionRow :=
  { id := genId, request_id := newRequestId, created_at := now,
    updated_at := now,
    role_justification :=
      some (jsOrDefault src.role_justification "Copied from existing user access"),
    payload := src.payload }

/-- A plain insert into security_role_selections: the unique key on request_id
rejects a second row for the same request. -/
def insertSelectionUnique (table : List RoleSelectionRow)
    (row : RoleSelectionRow) : Except Unit (List RoleSelectionRow) :=
  if table.any (fun s => s.request_id == row.request_id) then Except.error ()
  else Except.ok (table ++ [row])

/-- copyExistingUserRoles as defined at the top of App.tsx (create path):
look up the most recent completed request of the employee, read its selection
row and insert a duplicate for the new request.  Every failure — lookup
error, no completed source, no source selection row, insert error — returns
early with the table unchanged, and no delete is ever issued. -/
def copyExistingUserRolesCreate (fail : CopyStoreFailures)
    (requests : List Request) (selections : List RoleSelectionRow)
    (newRequestId employeeId genId : String) (now : Int) :
    List RoleSelectionRow :=
  if fail.requestLookupFails then selections
  else
    match mostRecentCompleted requests employeeId with
    | none => selections
    | some src =>
      if fail.rolesLookupFails then selections
      else
        match findSelection selections src.id with
        | none => selections
        | some roles =>
          if fail.insertFails then selections
          else
            match insertSelectionUnique selections
                (copiedRow roles newRequestId genId now) with
            | Except.error _ => selections
            | Except.ok table => table

/-- copyExistingUserRoles as defined at the top of EditRequestPage.tsx (edit
variant): identical to the create path except that, once the source selection
row has been found, the rows of the new request are deleted before the
duplicate is inserted; the delete result is not checked, and an insert
failure after the delete leaves the table cleared. -/
def copyExistingUserRolesEdit (fail : CopyStoreFailures)
    (requests : List Request) (selections : List RoleSelectionRow)
    (newRequestId employeeId genId : String) (now : Int) :
    List RoleSelectionRow :=
  if fail.requestLookupFails then selections
  else
    match mostRecentCompleted requests employeeId with
    | none => selections
    | some src =>
      if fail.rolesLookupFails then selections
      else
        match findSelection selections src.id with
        | none => selections
        | some roles =>
          let cleared := selections.filter
            (fun s => !(s.request_id == newRequestId))
          if fail.insertFails then cleared
          else
            match insertSelectionUnique cleared
                (copiedRow roles newRequestId genId now) with
            | Except.error _ => cleared
            | Except.ok table => table

/-- A completed request used as a copy source in concrete inputs. -/
def completedSource : Request :=
  { id := "src", employee_id := "E7", status := "completed",
    completed_by := some "Admin", completed_at := some "2026-01-01T00:00:00Z",
    created_at := 10 }

/-- The selection row of the completed source request. -/
def sourceSelection : RoleSelectionRow :=
  { id := "s1", request_id := "src", created_at := 11, updated_at := 11,
    role_justification := some "J", payload := [("voucher_entry", "true")] }

/-- A selection row that already exists for the new request. -/
def preexistingSelection : RoleSelectionRow :=
  { id := "s2", request_id := "new", created_at := 20, updated_at := 20,
    role_justification := some "old", payload := [("ap_inquiry_only", "true")] }

/-- C7 counterexample: the create-path variant never deletes the pre-existing
row for the new request first; with a completed source and its selection row
available, the duplicate insert conflicts with the unique key and the error
is swallowed, so the table is unchanged and the old row survives instead of
being replaced by the duplicate. -/
theorem copyFromUser_counterexample :
    copyExistingUserRolesCreate noFailures [completedSource]
      [sourceSelection, preexistingSelection] "new" "E7" "gen" 30 =
      [sourceSelection, preexistingSelection] ∧
    findSelection [sourceSelection, preexistingSelection] "new" =
      some preexistingSelection ∧
    preexistingSelection ≠ copiedRow sourceSelection "new" "gen" 30 := by
  refine ⟨?_, rfl, by decide⟩
  decide

/-- No row of the cleared table carries the new request key. -/
theorem selectionCount_cleared (selections : List RoleSelectionRow)
    (newRequestId : String) :
    selectionCount (selections.filter
      (fun s => !(s.request_id == newRequestId))) newRequestId = 0 := by
  unfold selectionCount
  rw [List.length_eq_zero]
  apply List.filter_eq_nil_iff.mpr
  intro s hs hpred
  have hkeep := (List.mem_filter.mp hs).2
  rw [hpred] at hkeep
  exact absurd hkeep (by decide)

/-- A successful unique insert keeps the per-request count at most one when it
was at most one before. -/
theorem selectionCount_insert_ok (rid : String)
    {selections table : List RoleSelectionRow} {row : RoleSelectionRow}
    (hle : selectionCount selections rid ≤ 1)
    (hins : insertSelectionUnique selections row = Except.ok table) :
    selectionCount table rid ≤ 1 := by
  unfold insertSelectionUnique at hins
  split at hins
  · cases hins
  · rename_i hany
    cases hins
    unfold selectionCount at *
    rw [List.filter_append]
    by_cases hr : (row.request_id == rid) = true
    · have hnil : selections.filter (fun s => s.request_id == rid) = [] := by
        apply List.filter_eq_nil_iff.mpr
        intro s hs hpred
        apply hany
        apply List.any_eq_true.mpr
        refine ⟨s, hs, ?_⟩
        have h1 : s.request_id = rid := by simpa using hpred
        have h2 : row.request_id = rid := by simpa using hr
        simp [h1, h2]
      rw [hnil]
      simp [List.filter_cons, hr]
    · have hnil2 : [row].filter (fun s => s.request_id == rid) = [] := by
        simp [List.filter_cons, hr]
      rw [hnil2]
      simpa using hle

/-- The create-path copy keeps the per-request count at most one. -/
theorem selectionCount_copyCreate_le (fail : CopyStoreFailures)
    (requests : List Request) (selections : List RoleSelectionRow)
    (newRequestId employeeId genId : String) (now : Int)
    (hle : selectionCount selections newRequestId ≤ 1) :
    selectionCount (copyExistingUserRolesCreate fail requests selections
      newRequestId employeeId genId now) newRequestId ≤ 1 := by
  unfold copyExistingUserRolesCreate
  cases hrl : fail.requestLookupFails
  · cases hmr : mostRecentCompleted requests employeeId with
    | none => simp only [hrl, hmr]; exact hle
    | some src =>
      cases hrf : fail.rolesLookupFails
      · cases hfs : findSelection selections src.id with
        | none => simp only [hrl, hmr, hrf, hfs]; exact hle
        | some roles =>
          cases hif : fail.insertFails
          · cases hins : insertSelectionUnique selections
                (copiedRow roles newRequestId genId now) with
            | error e =>
              simp only [hrl, hmr, hrf, hfs, hif, hins]
              exact hle
            | ok table =>
              simp only [hrl, hmr, hrf, hfs, hif, hins]
              exact selectionCount_insert_ok newRequestId hle hins
          · simp only [hrl, hmr, hrf, hfs, hif, if_true]; exact hle
      · simp only [hrl, hmr, hrf, if_true]; exact hle
  · simp only [hrl, if_true]; exact hle

/-- The edit-variant copy keeps the per-request count at most one. -/
theorem selectionCount_copyEdit_le (fail : CopyStoreFailures)
    (requests : List Request) (selections : List RoleSelectionRow)
    (newRequestId employeeId genId : String) (now : Int)
    (hle : selectionCount selections newRequestId ≤ 1) :
    selectionCount (copyExistingUserRolesEdit fail requests selections
      newRequestId employeeId genId now) newRequestId ≤ 1 := by
  have hcleared := selectionCount_cleared selections newRequestId
  unfold copyExistingUserRolesEdit
  cases hrl : fail.requestLookupFails
  · cases hmr : mostRecentCompleted requests employeeId with
    | none => simp only [hrl, hmr]; exact hle
    | some src =>
      cases hrf : fail.rolesLookupFails
      · cases hfs : findSelection selections src.id with
        | none => simp only [hrl, hmr, hrf, hfs]; exact hle
        | some roles =>
          cases hif : fail.insertFails
          · cases hins : insertSelectionUnique
                (selections.filter (fun s => !(s.request_id == newRequestId)))
                (copiedRow roles newRequestId genId now) with
            | error e =>
              simp only [hrl, hmr, hrf, hfs, hif, hins]
              show selectionCount (selections.filter
                (fun s => !(s.request_id == newRequestId))) newRequestId ≤ 1
              omega
            | ok table =>
              simp only [hrl, hmr, hrf, hfs, hif, hins]
              exact selectionCount_insert_ok newRequestId (by omega) hins
          · simp only [hrl, hmr, hrf, hfs, hif, if_true]
            show selectionCount (selections.filter
              (fun s => !(s.request_id == newRequestId))) newRequestId ≤ 1
            omega
      · simp only [hrl, hmr, hrf, if_true]; exact hle
  · simp only [hrl, if_true]; exact hle

/-- C7 amended: neither variant deletes the pre-existing row for the new
request unconditionally first.  When no completed source request exists, or
its selection row is missing, both variants leave the table unchanged (any
pre-existing row survives).  When source and row are found and no store call
fails, the edit-page variant deletes the rows of the new request and then
inserts the duplicate with identifiers stripped and the justification
defaulted, while the create-path variant never deletes, so with a
pre-existing row its insert conflicts and the table is unchanged.  In every
case at most one selection row per request is preserved. -/
theorem copyFromUser_amended (fail : CopyStoreFailures)
    (requests : List Request) (selections : List RoleSelectionRow)
    (newRequestId employeeId genId : String) (now : Int) :
    (mostRecentCompleted requests employeeId = none →
      copyExistingUserRolesCreate fail requests selections newRequestId
        employeeId genId now = selections ∧
      copyExistingUserRolesEdit fail requests selections newRequestId
        employeeId genId now = selections) ∧
    (∀ src, mostRecentCompleted requests employeeId = some src →
      findSelection selections src.id = none →
      copyExistingUserRolesCreate fail requests selections newRequestId
        employeeId genId now = selections ∧
      copyExistingUserRolesEdit fail requests selections newRequestId
        employeeId genId now = selections) ∧
    (∀ src roles, mostRecentCompleted requests employeeId = some src →
      findSelection selections src.id = some roles → fail = noFailures →
      copyExistingUserRolesEdit fail requests selections newRequestId
        employeeId genId now =
        selections.filter (fun s => !(s.request_id == newRequestId)) ++
          [copiedRow roles newRequestId genId now] ∧
      (findSelection selections newRequestId ≠ none →
        copyExistingUserRolesCreate fail requests selections newRequestId
          employeeId genId now = selections)) ∧
    (selectionCount selections newRequestId ≤ 1 →
      selectionCount (copyExistingUserRolesCreate fail requests selections
        newRequestId employeeId genId now) newRequestId ≤ 1 ∧
      selectionCount (copyExistingUserRolesEdit fail requests selections
        newRequestId employeeId genId now) newRequestId ≤ 1) := by
  refine ⟨?_, ?_, ?_, ?_⟩
  · intro hmr
    constructor <;>
      simp [copyExistingUserRolesCreate, copyExistingUserRolesEdit, hmr]
  · intro src hmr hfs
    constructor <;>
      simp [copyExistingUserRolesCreate, copyExistingUserRolesEdit, hmr, hfs]
  · intro src roles hmr hfs hfail
    subst hfail
    have hins : insertSelectionUnique
        (selections.filter (fun s => !(s.request_id == newRequestId)))
        (copiedRow roles newRequestId genId now) = Except.ok
        (selections.filter (fun s => !(s.request_id == newRequestId)) ++
          [copiedRow roles newRequestId genId now]) := by
      unfold insertSelectionUnique
      rw [if_neg]
      intro hc
      rw [List.any_eq_true] at hc
      obtain ⟨x, hx, hpx⟩ := hc
      have hkeep := (List.mem_filter.mp hx).2
      rw [show (copiedRow roles newRequestId genId now).request_id =
        newRequestId from rfl] at hpx
      rw [hpx] at hkeep
      exact absurd hkeep (by decide)
    constructor
    · simp [copyExistingUserRolesEdit, hmr, hfs, noFailures, hins]
    · intro hne
      obtain ⟨x, hx⟩ := Option.ne_none_iff_exists'.mp hne
      unfold findSelection at hx
      have hpx := List.find?_some hx
      have hmem : x ∈ selections := List.mem_of_find?_eq_some hx
      have hany : (selections.any (fun s => s.request_id ==
          (copiedRow roles newRequestId genId now).request_id)) = true :=
        List.any_eq_true.mpr ⟨x, hmem, hpx⟩
      have hinsErr : insertSelectionUnique selections
          (copiedRow roles newRequestId genId now) = Except.error () := by
        unfold insertSelectionUnique
        rw [if_pos hany]
      simp [copyExistingUserRolesCreate, hmr, hfs, noFailures, hinsErr]
  · intro hle
    exact ⟨selectionCount_copyCreate_le fail requests selections newRequestId
        employeeId genId now hle,
      selectionCount_copyEdit_le fail requests selections newRequestId
        employeeId genId now hle⟩

/-- Witness for copyFromUser_amended: with no requests at all the lookup finds
no completed source and the pre-existing row survives untouched. -/
theorem copyFromUser_amended_witness :
    copyExistingUserRolesCreate noFailures [] [preexistingSelection] "new"
      "E7" "g" 5 = [preexistingSelection] :=
  ((copyFromUser_amended noFailures [] [preexistingSelection] "new" "E7" "g"
    5).1 rfl).1

/-- Any failure condition inside the create-path copy leaves the selections
table unchanged. -/
theorem copyCreate_unchanged (fail : CopyStoreFailures)
    (requests : List Request) (selections : List RoleSelectionRow)
    (newRequestId employeeId genId : String) (now : Int)
    (h : fail.requestLookupFails = true ∨
      mostRecentCompleted requests employeeId = none ∨
      fail.rolesLookupFails = true ∨
      (∀ src, mostRecentCompleted requests employeeId = some src →
        findSelection selections src.id = none) ∨
      fail.insertFails = true ∨
      findSelection selections newRequestId ≠ none) :
    copyExistingUserRolesCreate fail requests selections newRequestId
      employeeId genId now = selections := by
  unfold copyExistingUserRolesCreate
  cases hrl : fail.requestLookupFails with
  | true => simp [hrl]
  | false =>
    cases hmr : mostRecentCompleted requests employeeId with
    | none => simp [hrl, hmr]
    | some src =>
      cases hrf : fail.rolesLookupFails with
      | true => simp [hrl, hmr, hrf]
      | false =>
        cases hfs : findSelection selections src.id with
        | none => simp [hrl, hmr, hrf, hfs]
        | some roles =>
          cases hif : fail.insertFails with
          | true => simp [hrl, hmr, hrf, hfs, hif]
          | false =>
            rcases h with h | h | h | h | h | h
            · rw [hrl] at h
              exact Bool.noConfusion h
            · rw [hmr] at h
              exact Option.noConfusion h
            · rw [hrf] at h
              exact Bool.noConfusion h
            · have h4 := h src hmr
              rw [hfs] at h4
              exact Option.noConfusion h4
            · rw [hif] at h
              exact Bool.noConfusion h
            · obtain ⟨x, hx⟩ := Option.ne_none_iff_exists'.mp h
              unfold findSelection at hx
              have hpx := List.find?_some hx
              have hmem : x ∈ selections := List.mem_of_find?_eq_some hx
              have hany : (selections.any (fun s => s.request_id ==
                  (copiedRow roles newRequestId genId now).request_id)) = true :=
                List.any_eq_true.mpr ⟨x, hmem, hpx⟩
              have hinsErr : insertSelectionUnique selections
                  (copiedRow roles newRequestId genId now) = Except.error () := by
                unfold insertSelectionUnique
                rw [if_pos hany]
              simp [hrl, hmr, hrf, hfs, hif, hinsErr]

/-- The tail of the create-flow onSubmit copy branch: after the request,
security-area and copy_user_details inserts succeed, onSubmit awaits
copyExistingUserRoles and then unconditionally reports success and navigates
to /success. -/
def onSubmitCreateCopyTail (fail : CopyStoreFailures) (requests : List Request)
    (selections : List RoleSelectionRow)
    (newRequestId employeeId genId : String) (now : Int) :
    Bool × String × List RoleSelectionRow :=
  (true, "/success",
    copyExistingUserRolesCreate fail requests selections newRequestId
      employeeId genId now)

/-- C9: every failure inside the create-path copy — source lookup error, no
completed source request, roles lookup error, missing source selection row,
insert failure or unique-key conflict — is swallowed: the submission still
reports success and navigates to /success, the selections table is unchanged,
and with a fresh request id no selection row exists for the new request
afterwards. -/
theorem createCopy_failures_swallowed (fail : CopyStoreFailures)
    (requests : List Request) (selections : List RoleSelectionRow)
    (newRequestId employeeId genId : String) (now : Int) :
    (onSubmitCreateCopyTail fail requests selections newRequestId employeeId
      genId now).1 = true ∧
    (onSubmitCreateCopyTail fail requests selections newRequestId employeeId
      genId now).2.1 = "/success" ∧
    ((fail.requestLookupFails = true ∨
      mostRecentCompleted requests employeeId = none ∨
      fail.rolesLookupFails = true ∨
      (∀ src, mostRecentCompleted requests employeeId = some src →
        findSelection selections src.id = none) ∨
      fail.insertFails = true ∨
      findSelection selections newRequestId ≠ none) →
      (onSubmitCreateCopyTail fail requests selections newRequestId
        employeeId genId now).2.2 = selections) ∧
    (findSelection selections newRequestId = none →
      (fail.requestLookupFails = true ∨
        mostRecentCompleted requests employeeId = none ∨
        fail.rolesLookupFails = true ∨
        (∀ src, mostRecentCompleted requests employeeId = some src →
          findSelection selections src.id = none) ∨
        fail.insertFails = true ∨
        findSelection selections newRequestId ≠ none) →
      findSelection ((onSubmitCreateCopyTail fail requests selections
        newRequestId employeeId genId now).2.2) newRequestId = none) := by
  refine ⟨rfl, rfl, ?_, ?_⟩
  · intro h
    exact copyCreate_unchanged fail requests selections newRequestId
      employeeId genId now h
  · intro hfresh h
    show findSelection (copyExistingUserRolesCreate fail requests selections
      newRequestId employeeId genId now) newRequestId = none
    rw [copyCreate_unchanged fail requests selections newRequestId employeeId
      genId now h]
    exact hfresh

/-- A failure configuration where the source-request lookup errors out. -/
def lookupFailure : CopyStoreFailures :=
  { requestLookupFails := true, rolesLookupFails := false, insertFails := false }

/-- Witness for createCopy_failures_swallowed: a failing source lookup on a
fresh request leaves no selection row for it. -/
theorem createCopy_failures_swallowed_witness :
    findSelection ((onSubmitCreateCopyTail lookupFailure [] [] "new" "E7" "g"
      1).2.2) "new" = none :=
  (createCopy_failures_swallowed lookupFailure [] [] "new" "E7" "g" 1).2.2.2
    rfl (Or.inl rfl)

end SecurityForm
